import Mathlib

/-!
# Verification of the 4Charm media-fetching engine

Shallow embedding of the core engine of the 4Charm repository
(`src/four_charm/core/scraper.py`, `src/four_charm/core/models.py`,
`src/four_charm/config.py`) together with proofs of the specified
properties.

Modelling conventions:
* Python strings are `List Char` (wrapped in `String` at the boundary);
  machine floats used by the rate controller and the disk-space check are
  modelled as exact rationals;
* fallible code returns `Option`/`Except`;
* wall-clock timestamps recorded in the download history are not modelled
  (the history keeps url/status/error, which is what the claims are about);
* `time.sleep` calls are modelled by appending the slept duration to an
  explicit log.
-/

namespace FourCharm

/-! ## Config (`src/four_charm/config.py`) -/

namespace Config

def MAX_RETRIES : Nat := 3

def MAX_FILENAME_LENGTH : Nat := 200

def MIN_FREE_SPACE_MB : ℚ := 100

/-- `BASE_DELAY = 0.3` (float literal modelled as the exact rational). -/
def BASE_DELAY : ℚ := 3/10

def BACKOFF_MULTIPLIER : ℚ := 3/2

def MAX_DELAY : ℚ := 5

end Config

/-! ## DownloadQueue (`src/four_charm/core/models.py`, lines 11-89) -/

/-- Status recorded in a history entry by `complete_download`/`fail_download`. -/
inductive HistStatus where
  | completed
  | failed
deriving DecidableEq, Repr

/-- One append-only history record.  The Python dict also stores
`completed_at: datetime.now()`, which is not modelled. -/
structure HistoryEntry where
  url : String
  status : HistStatus
  error : Option String
deriving DecidableEq, Repr

/-- `str(error)` for the `Optional[Exception]` argument of `fail_download`:
`str(None)` is the string `"None"`. -/
def pyStr : Option String → String
  | none => "None"
  | some s => s

/-- The four url collections plus the history list of `DownloadQueue`. -/
structure DownloadQueue where
  queue : List String
  history : List HistoryEntry
  active_downloads : List String
  completed : List String
  failed : List String
deriving DecidableEq, Repr

namespace DownloadQueue

/-- `DownloadQueue.__init__`. -/
def init : DownloadQueue :=
  { queue := [], history := [], active_downloads := [], completed := [], failed := [] }

/-- `add_url`: append to `queue` unless already queued or active. -/
def add_url (q : DownloadQueue) (url : String) : DownloadQueue :=
  if url ∉ q.queue ∧ url ∉ q.active_downloads then
    { q with queue := q.queue ++ [url] }
  else q

/-- `remove_url`: drop the queue entry at `index` when in range
(the Python `int` index is modelled as `Nat`; the method is only called
with non-negative indices). -/
def remove_url (q : DownloadQueue) (index : Nat) : DownloadQueue :=
  if index < q.queue.length then { q with queue := q.queue.eraseIdx index } else q

/-- `start_download`: move `url` from `queue` to `active_downloads`.
Python's guarded `list.remove` (first occurrence) is `List.erase`. -/
def start_download (q : DownloadQueue) (url : String) : DownloadQueue :=
  let q1 := if url ∈ q.queue then { q with queue := q.queue.erase url } else q
  if url ∈ q1.active_downloads then q1
  else { q1 with active_downloads := q1.active_downloads ++ [url] }

/-- `complete_download`: remove from `active_downloads`; append to
`completed` and to `history` unless already completed. -/
def complete_download (q : DownloadQueue) (url : String) : DownloadQueue :=
  let q1 :=
    if url ∈ q.active_downloads then
      { q with active_downloads := q.active_downloads.erase url }
    else q
  if url ∈ q1.completed then q1
  else { q1 with
          completed := q1.completed ++ [url],
          history := q1.history ++ [⟨url, HistStatus.completed, none⟩] }

/-- `fail_download`: remove from `active_downloads`; append to `failed`
and to `history` (with `str(error)`) unless already failed. -/
def fail_download (q : DownloadQueue) (url : String) (error : Option String) :
    DownloadQueue :=
  let q1 :=
    if url ∈ q.active_downloads then
      { q with active_downloads := q.active_downloads.erase url }
    else q
  if url ∈ q1.failed then q1
  else { q1 with
          failed := q1.failed ++ [url],
          history := q1.history ++ [⟨url, HistStatus.failed, some (pyStr error)⟩] }

/-- `clear_completed`: clear the completed and failed lists. -/
def clear_completed (q : DownloadQueue) : DownloadQueue :=
  { q with completed := [], failed := [] }

/-- `clear_all`: clear every list including the history. -/
def clear_all (_q : DownloadQueue) : DownloadQueue := init

end DownloadQueue

/-- One `DownloadQueue` operation, as named in the claim. -/
inductive QOp where
  | add_url (url : String)
  | start_download (url : String)
  | complete_download (url : String)
  | fail_download (url : String) (error : Option String)
  | clear_completed
  | clear_all
deriving DecidableEq, Repr

/-- Apply one operation. -/
def QOp.apply (q : DownloadQueue) : QOp → DownloadQueue
  | .add_url u => q.add_url u
  | .start_download u => q.start_download u
  | .complete_download u => q.complete_download u
  | .fail_download u e => q.fail_download u e
  | .clear_completed => q.clear_completed
  | .clear_all => q.clear_all

/-- Run a sequence of operations from the empty queue. -/
def runQueue (ops : List QOp) : DownloadQueue :=
  ops.foldl QOp.apply DownloadQueue.init

/-- The invariant the queue operations actually maintain: each collection is
duplicate-free and the pending queue is disjoint from the active set. -/
def QueueInv (q : DownloadQueue) : Prop :=
  q.queue.Nodup ∧ q.active_downloads.Nodup ∧ q.completed.Nodup ∧ q.failed.Nodup ∧
    q.queue.Disjoint q.active_downloads

/-! ## Rate controller (`scraper.py` lines 228-236 and 263-268) -/

/-- Delay update of `adaptive_delay` (lines 230-235); the `time.sleep` that
follows is not part of the delay state. -/
def adaptive_delay_update (delay : ℚ) (success : Bool) : ℚ :=
  if success then max Config.BASE_DELAY (delay / (11/10))
  else min Config.MAX_DELAY (delay * Config.BACKOFF_MULTIPLIER)

/-- The three ways `current_delay` is updated during a session. -/
inductive RateEvent where
  | success
  | failure
  | rateLimited
deriving DecidableEq, Repr

/-- One update of `current_delay`: `adaptive_delay(success=True)`,
`adaptive_delay(success=False)`, or the HTTP-429 branch of
`handle_network_error` (line 265). -/
def rate_step (delay : ℚ) : RateEvent → ℚ
  | .success => adaptive_delay_update delay true
  | .failure => adaptive_delay_update delay false
  | .rateLimited => min Config.MAX_DELAY (delay * 2)

/-- `current_delay` after a sequence of updates, starting from
`Config.BASE_DELAY` (`__init__`, line 76). -/
def run_rate (evs : List RateEvent) : ℚ :=
  evs.foldl rate_step Config.BASE_DELAY

/-! ## HTTP response handling for downloads (`scraper.py` lines 134-148, 183-194) -/

/-- File open mode chosen by `_handle_download_response`. -/
inductive FileMode where
  | ab
  | wb
deriving DecidableEq, Repr

/-- `requests.Response.raise_for_status` raises `HTTPError` exactly for
status codes in [400, 600). -/
def raises_for_status (status : Nat) : Bool :=
  decide (400 ≤ status) && decide (status < 600)

/-- `_handle_download_response` (lines 134-148).  The destination file is
the size of the partial file, or `none` when absent; the 200 branch unlinks
it.  An `.error status` result is the exception from `raise_for_status`.
`content_length` is `int(response.headers.get("content-length", 0))`. -/
def _handle_download_response (status content_length existing_size : Nat)
    (dest : Option Nat) : Except Nat (FileMode × Nat × Option Nat) :=
  if status = 206 then
    .ok (.ab, content_length + existing_size, dest)
  else if status = 200 then
    .ok (.wb, content_length, none)
  else if raises_for_status status then
    .error status
  else
    .ok (.wb, 0, dest)

/-- `_build_resume_headers` (lines 183-194): returns the optional
`Range: bytes=N-` start together with `existing_size`. -/
def _build_resume_headers (dest : Option Nat) : Option Nat × Nat :=
  match dest with
  | none => (none, 0)
  | some sz => if sz > 0 then (some sz, sz) else (none, sz)

/-! ## One transfer attempt reaching the stream (`scraper.py` lines 591-644)

The HTTP exchange is abstracted by a `TransferAttempt` record holding the
response status, its content-length header, and the sizes of the body
chunks delivered by `iter_content` (the model covers attempts in which the
body is consumed without a mid-stream exception, which is where the
post-transfer validation of lines 629-632 runs).  The file system is the
optional size of the destination file. -/

structure TransferAttempt where
  status : Nat
  content_length : Nat
  chunks : List Nat
deriving DecidableEq, Repr

/-- Size of the destination file after the streamed write: `open(path, "wb")`
truncates, `open(path, "ab")` keeps the (possibly just-unlinked) contents. -/
def streamed_size (mode : FileMode) (dest : Option Nat) (chunks : List Nat) : Nat :=
  (match mode, dest with
   | .ab, some sz => sz
   | .ab, none => 0
   | .wb, _ => 0) + chunks.sum

/-- One attempt of the transfer body: resume negotiation, streamed write,
and the zero-byte validation of lines 629-632.  Returns the resulting file
system and either `.ok true` (success reported) or the raised exception. -/
def attempt_transfer (dest : Option Nat) (a : TransferAttempt) :
    Option Nat × Except String Bool :=
  let existing_size := (_build_resume_headers dest).2
  match _handle_download_response a.status a.content_length existing_size dest with
  | .error code => (dest, .error ("HTTP " ++ toString code))
  | .ok (mode, _total, dest1) =>
      let file_size := streamed_size mode dest1 a.chunks
      if file_size = 0 then (none, .error "Downloaded file is empty")
      else (some file_size, .ok true)

/-! ## Disk-space gate (`scraper.py` lines 375-385) -/

/-- `check_disk_space`: `disk_usage_free` is the outcome of
`shutil.disk_usage(dir).free` (bytes, or the raised exception). -/
def check_disk_space (download_dir : Option String)
    (disk_usage_free : Except String Nat) (required_mb : ℚ) : Bool :=
  match download_dir with
  | none => false
  | some _ =>
      match disk_usage_free with
      | .error _ => true
      | .ok free_bytes =>
          decide ((free_bytes : ℚ) / (1024 * 1024) >
            Config.MIN_FREE_SPACE_MB + required_mb)

/-! ## download_file retry loop (`scraper.py` lines 561-653)

The body of one attempt (path preparation, dedup check, disk gate, HTTP
exchange) is abstracted into an outcome per attempt index; the control
flow around it — the guard on the unset download directory, the
`start_download` call, the cancellation short-circuit, the retry
bookkeeping of `_handle_download_retry` (lines 205-226) with its
`time.sleep(2**attempt)`, and `_record_failed_download` (lines 196-203) —
is modelled faithfully. -/

/-- How one iteration of the `for attempt in range(MAX_RETRIES)` body ends. -/
inductive AttemptOutcome where
  | success
  | diskFull
  | cancelled
  | failure (err : String)
deriving DecidableEq, Repr

/-- The scraper state touched by `download_file`. -/
structure ScraperState where
  download_dir : Option String
  cancelled : Bool
  stats_failed : Nat
  stats_downloaded : Nat
  queue : DownloadQueue
  sleep_log : List Nat
deriving DecidableEq, Repr

/-- `_record_failed_download`: increment the failed counter and mark the
url failed in the queue. -/
def _record_failed_download (st : ScraperState) (url err : String) : ScraperState :=
  { st with
      stats_failed := st.stats_failed + 1,
      queue := st.queue.fail_download url (some err) }

/-- The retry loop (lines 577-653).  `remaining` is the number of attempts
still allowed, so `remaining = 0` after the loop models the fall-through
`fail_download` of lines 650-653, and `remaining = 1` makes the current
attempt the last one (`attempt == Config.MAX_RETRIES - 1` in
`_handle_download_retry`). -/
def download_loop (url : String) (outcome : Nat → AttemptOutcome) :
    Nat → Nat → ScraperState → Bool × ScraperState
  | 0, _attempt, st =>
      (false, { st with queue := st.queue.fail_download url (some "Max retries exceeded") })
  | remaining + 1, attempt, st =>
      match outcome attempt with
      | .success =>
          (true, { st with
                    stats_downloaded := st.stats_downloaded + 1,
                    queue := st.queue.complete_download url })
      | .diskFull => (false, _record_failed_download st url "Insufficient disk space")
      | .cancelled => (false, { st with queue := st.queue.fail_download url (some "Cancelled") })
      | .failure err =>
          if remaining = 0 then (false, _record_failed_download st url err)
          else
            download_loop url outcome remaining (attempt + 1)
              { st with sleep_log := st.sleep_log ++ [2 ^ attempt] }

/-- `download_file` (lines 561-653): the unset-directory guard, the
`start_download` call, the initial cancellation check
(`_ensure_active_download`), then the retry loop. -/
def download_file (st : ScraperState) (url : String)
    (outcome : Nat → AttemptOutcome) : Bool × ScraperState :=
  if st.download_dir = none then (false, st)
  else
    let st1 := { st with queue := st.queue.start_download url }
    if st1.cancelled then
      (false, { st1 with queue := st1.queue.fail_download url (some "Cancelled") })
    else download_loop url outcome Config.MAX_RETRIES 0 st1

/-! ## Filename sanitization (`scraper.py` lines 296-334)

Python strings are `List Char` here; `sanitize_filename` wraps the
list-level pipeline at the `String` boundary. -/

/-- A character matched by the class of the first regex,
`[<>:"/\\|?*\x00-\x1f]`. -/
def badChar (c : Char) : Bool :=
  c == '<' || c == '>' || c == ':' || c == '"' || c == '/' || c == '\\' ||
    c == '|' || c == '?' || c == '*' || decide (c.toNat ≤ 0x1f)

/-- Whitespace for Python's unicode regex class and for `str.strip` /
`str.isspace` (the Py_UNICODE_ISSPACE set). -/
def pySpace (c : Char) : Bool :=
  let n := c.toNat
  decide (0x9 ≤ n ∧ n ≤ 0xd) || decide (0x1c ≤ n ∧ n ≤ 0x20) ||
    n == 0x85 || n == 0xa0 || n == 0x1680 ||
    decide (0x2000 ≤ n ∧ n ≤ 0x200a) ||
    n == 0x2028 || n == 0x2029 || n == 0x202f || n == 0x205f || n == 0x3000

/-- Line 298: replace every matched character with an underscore. -/
def replaceBadChars (l : List Char) : List Char :=
  l.map fun c => if badChar c then '_' else c

/-- Line 299, first half: collapse every maximal whitespace run to one
space (the substitution applied by the second regex). -/
def collapseWS : List Char → List Char
  | [] => []
  | [c] => if pySpace c then [' '] else [c]
  | c :: d :: rest =>
      if pySpace c then
        if pySpace d then collapseWS (d :: rest)
        else ' ' :: collapseWS (d :: rest)
      else c :: collapseWS (d :: rest)

/-- Line 299, second half: `str.strip()`. -/
def pyStrip (l : List Char) : List Char :=
  (((l.dropWhile pySpace).reverse.dropWhile pySpace)).reverse

/-- The reserved device names of lines 301-324. -/
def reserved_names : List (List Char) :=
  ["CON", "PRN", "AUX", "NUL",
   "COM1", "COM2", "COM3", "COM4", "COM5", "COM6", "COM7", "COM8", "COM9",
   "LPT1", "LPT2", "LPT3", "LPT4", "LPT5", "LPT6", "LPT7", "LPT8", "LPT9"].map
    String.data

/-- Lines 325-327: `sanitized.split(".")[0].upper()` compared with the
reserved set (`split(".")[0]` is the part before the first dot; the names
are ASCII, so `Char.toUpper` models `str.upper` on every relevant input). -/
def reserved_prefix_step (l : List Char) : List Char :=
  let name_part := (l.takeWhile fun c => !(c == '.')).map Char.toUpper
  if name_part ∈ reserved_names then '_' :: l else l

/-- Model of `os.path.splitext` (posixpath) for names containing no path
separator — line 298 already replaced every '/'.  The extension starts at
the last dot, unless every character before that dot is itself a dot. -/
def splitext (l : List Char) : List Char × List Char :=
  if '.' ∈ l then
    let after := ((l.reverse.takeWhile fun c => !(c == '.'))).reverse
    let dotIdx := l.length - after.length - 1
    if (l.take dotIdx).any (fun c => !(c == '.')) then (l.take dotIdx, l.drop dotIdx)
    else (l, [])
  else (l, [])

/-- Python slicing `l[:k]` for an `int` bound `k` (negative bounds count
from the end). -/
def pyTake (l : List Char) (k : Int) : List Char :=
  l.take (if 0 ≤ k then k.toNat else ((l.length : Int) + k).toNat)

/-- Lines 329-332: when the name is too long, truncate the stem to
`MAX_FILENAME_LENGTH - len(ext)` characters and re-append the extension. -/
def truncate_step (l : List Char) : List Char :=
  if Config.MAX_FILENAME_LENGTH < l.length then
    pyTake (splitext l).1 ((Config.MAX_FILENAME_LENGTH : Int) - ((splitext l).2.length : Int))
      ++ (splitext l).2
  else l

/-- Everything before the truncation step (lines 298-327). -/
def sanitize_pre (l : List Char) : List Char :=
  reserved_prefix_step (pyStrip (collapseWS (replaceBadChars l)))

/-- `sanitize_filename` on `List Char`, line 334 included
(`return sanitized or "unnamed_file"`). -/
def sanitizeL (l : List Char) : List Char :=
  let s := truncate_step (sanitize_pre l)
  if s = [] then "unnamed_file".data else s

/-- `FourChanScraper.sanitize_filename` (lines 296-334). -/
def sanitize_filename (s : String) : String :=
  String.mk (sanitizeL s.data)

/-! ## URL parsing (`scraper.py` lines 387-412)

`urllib.parse.urlparse` is modelled for the parts `parse_url` consumes:
scheme splitting, netloc extraction, the path, and `ParseResult.hostname`
(userinfo and port stripped, lowercased).  Query and fragment only matter
as path delimiters here. -/

/-- Characters allowed in a URL scheme after the initial letter. -/
def schemeChar (c : Char) : Bool :=
  c.isAlphanum || c == '+' || c == '-' || c == '.'

/-- Scheme splitting of `urlparse`: a valid scheme before the first colon
is split off (and lowercased), otherwise the url is left whole. -/
def splitScheme (url : List Char) : List Char × List Char :=
  let pre := url.takeWhile fun c => !(c == ':')
  match url.dropWhile (fun c => !(c == ':')) with
  | ':' :: rest =>
      if pre ≠ [] ∧ (pre.headD 'a').isAlpha ∧ pre.all schemeChar then
        (pre.map Char.toLower, rest)
      else ([], url)
  | _ => ([], url)

/-- A character ending the netloc. -/
def netlocEnd (c : Char) : Bool := c == '/' || c == '?' || c == '#'

/-- Netloc extraction of `urlparse`: present only after a literal "//",
running to the first of '/', '?', '#'. -/
def splitNetloc : List Char → List Char × List Char
  | '/' :: '/' :: r => (r.takeWhile fun c => !(netlocEnd c),
                        r.dropWhile fun c => !(netlocEnd c))
  | rest => ([], rest)

/-- The path component: the remainder up to the query or fragment. -/
def pathOf (r : List Char) : List Char :=
  r.takeWhile fun c => !(c == '?' || c == '#')

/-- `ParseResult.hostname`: the part of the netloc after the last '@',
with a bracketed IPv6 literal or a port stripped, lowercased. -/
def hostnameOf (netloc : List Char) : List Char :=
  let hostinfo := ((netloc.reverse.takeWhile fun c => !(c == '@'))).reverse
  let host :=
    if hostinfo.headD ' ' == '[' then (hostinfo.drop 1).takeWhile fun c => !(c == ']')
    else hostinfo.takeWhile fun c => !(c == ':')
  host.map Char.toLower

/-- Lines 390-392: strip the input and prepend "https://" unless it
already starts with "http". -/
def normalize_url (url : String) : List Char :=
  let u := pyStrip url.data
  if List.isPrefixOf "http".data u then u else "https://".data ++ u

/-- The hostname `parse_url` checks (line 394; the hostname is lowercased
once more, which is idempotent and kept for fidelity). -/
def url_hostname (url : String) : List Char :=
  (hostnameOf (splitNetloc (splitScheme (normalize_url url)).2).1).map Char.toLower

/-- The path `parse_url` splits (line 397). -/
def url_path (url : String) : List Char :=
  pathOf (splitNetloc (splitScheme (normalize_url url)).2).2

/-- The host gate of line 395: the negation of
`hostname != "4chan.org" and not hostname.endswith(".4chan.org")`. -/
def host_ok (hostname : List Char) : Bool :=
  hostname == "4chan.org".data || List.isSuffixOf ".4chan.org".data hostname

/-- `str.split(sep)` for a one-character separator. -/
def splitOnChar (sep : Char) : List Char → List (List Char)
  | [] => [[]]
  | c :: rest =>
      match splitOnChar sep rest with
      | [] => [[c]]
      | h :: t => if c == sep then [] :: h :: t else (c :: h) :: t

/-- `str.isdigit` restricted to ASCII digits (thread ids are ASCII). -/
def isDigits (l : List Char) : Bool :=
  !l.isEmpty && l.all Char.isDigit

/-- Kind of resource in the parse result. -/
inductive UrlType where
  | board
  | thread
  | catalog
deriving DecidableEq, Repr

/-- The dict returned by `parse_url`. -/
structure ParsedUrl where
  board : String
  type : UrlType
  thread_id : Option String
deriving DecidableEq, Repr

/-- Lines 397-409: split the path, require a first segment, then classify
thread / catalog / board urls. -/
def parse_path (path : List Char) : Option ParsedUrl :=
  let path_parts := (splitOnChar '/' path).filter fun p => !p.isEmpty
  match path_parts with
  | [] => none
  | board :: _ =>
      if path_parts.length ≥ 3 ∧ path_parts[1]? = some "thread".data then
        let thread_id := (splitOnChar '#' (path_parts.getD 2 [])).headD []
        if isDigits thread_id then
          some ⟨String.mk board, .thread, some (String.mk thread_id)⟩
        else some ⟨String.mk board, .board, none⟩
      else if path_parts.length ≥ 2 ∧ path_parts[1]? = some "catalog".data then
        some ⟨String.mk board, .catalog, none⟩
      else some ⟨String.mk board, .board, none⟩

/-- `FourChanScraper.parse_url` (lines 387-412).  The try/except at lines
389-412 makes the Python function total; the model is total outright. -/
def parse_url (url : String) : Option ParsedUrl :=
  if host_ok (url_hostname url) then parse_path (url_path url) else none

/-! ## Characterization predicates used in the sanitizer proofs -/

/-- No character of the list is matched by the first sanitizer regex. -/
def NoBad (l : List Char) : Prop := ∀ c ∈ l, badChar c = false

/-- Whitespace-normal: every whitespace character is a plain space and no
two adjacent characters are both whitespace — the shape produced by the
collapsing regex. -/
def WsNorm (l : List Char) : Prop :=
  (∀ c ∈ l, pySpace c = true → c = ' ') ∧
    l.Chain' fun a b => pySpace a = false ∨ pySpace b = false

/-- The spec's acceptance predicate on hosts: equal to the root domain or
ending in "." followed by it, case-insensitively. -/
def spec_host_accepted (hostname : List Char) : Prop :=
  hostname.map Char.toLower = "4chan.org".data ∨
    ".4chan.org".data <:+ hostname.map Char.toLower

/-- Host characters that pass through netloc/hostname extraction intact:
none of the delimiters urlparse reacts to. -/
def urlHostClean (c : Char) : Bool :=
  !(c == '/' || c == '?' || c == '#' || c == '@' || c == ':' || c == '[')

/-! ## Helper theorems -/

theorem queueInv_init : QueueInv DownloadQueue.init := by
  refine ⟨List.nodup_nil, List.nodup_nil, List.nodup_nil, List.nodup_nil, ?_⟩
  intro a ha
  simp [DownloadQueue.init] at ha

theorem queueInv_add_url (q : DownloadQueue) (u : String) (h : QueueInv q) :
    QueueInv (q.add_url u) := by
  obtain ⟨h1, h2, h3, h4, h5⟩ := h
  unfold DownloadQueue.add_url
  split
  · next hc =>
    obtain ⟨hq, ha⟩ := hc
    refine ⟨?_, h2, h3, h4, ?_⟩
    · simp [List.nodup_append, h1, List.disjoint_singleton, hq]
    · intro a haq hain
      rcases List.mem_append.mp haq with hmem | hmem
      · exact h5 hmem hain
      · simp only [List.mem_singleton] at hmem
        subst hmem
        exact ha hain
  · exact ⟨h1, h2, h3, h4, h5⟩

theorem queueInv_start_download (q : DownloadQueue) (u : String) (h : QueueInv q) :
    QueueInv (q.start_download u) := by
  obtain ⟨h1, h2, h3, h4, h5⟩ := h
  unfold DownloadQueue.start_download
  by_cases hq : u ∈ q.queue <;>
    by_cases ha : u ∈ q.active_downloads <;>
    simp only [hq, ha, if_true, if_false]
  · exact ⟨h1.erase u, h2, h3, h4, fun a hmem => h5 (List.mem_of_mem_erase hmem)⟩
  · refine ⟨h1.erase u, ?_, h3, h4, ?_⟩
    · simp [List.nodup_append, h2, List.disjoint_singleton, ha]
    · intro a hmem hain
      obtain ⟨hne, hmem'⟩ := h1.mem_erase_iff.mp hmem
      rcases List.mem_append.mp hain with h' | h'
      · exact h5 hmem' h'
      · simp only [List.mem_singleton] at h'
        exact hne h'
  · exact ⟨h1, h2, h3, h4, h5⟩
  · refine ⟨h1, ?_, h3, h4, ?_⟩
    · simp [List.nodup_append, h2, List.disjoint_singleton, ha]
    · intro a hmem hain
      rcases List.mem_append.mp hain with h' | h'
      · exact h5 hmem h'
      · simp only [List.mem_singleton] at h'
        subst h'
        exact hq hmem

theorem queueInv_complete_download (q : DownloadQueue) (u : String) (h : QueueInv q) :
    QueueInv (q.complete_download u) := by
  obtain ⟨h1, h2, h3, h4, h5⟩ := h
  unfold DownloadQueue.complete_download
  by_cases ha : u ∈ q.active_downloads <;>
    simp only [ha, if_true, if_false] <;>
    [skip; skip] <;> split
  · exact ⟨h1, h2.erase u, h3, h4, fun a hmem hin => h5 hmem (List.mem_of_mem_erase hin)⟩
  · next hc =>
    exact ⟨h1, h2.erase u, by simp [List.nodup_append, h3, List.disjoint_singleton, hc],
      h4, fun a hmem hin => h5 hmem (List.mem_of_mem_erase hin)⟩
  · exact ⟨h1, h2, h3, h4, h5⟩
  · next hc =>
    exact ⟨h1, h2, by simp [List.nodup_append, h3, List.disjoint_singleton, hc], h4, h5⟩

theorem queueInv_fail_download (q : DownloadQueue) (u : String) (e : Option String)
    (h : QueueInv q) : QueueInv (q.fail_download u e) := by
  obtain ⟨h1, h2, h3, h4, h5⟩ := h
  unfold DownloadQueue.fail_download
  by_cases ha : u ∈ q.active_downloads <;>
    simp only [ha, if_true, if_false] <;>
    [skip; skip] <;> split
  · exact ⟨h1, h2.erase u, h3, h4, fun a hmem hin => h5 hmem (List.mem_of_mem_erase hin)⟩
  · next hc =>
    exact ⟨h1, h2.erase u, h3, by simp [List.nodup_append, h4, List.disjoint_singleton, hc],
      fun a hmem hin => h5 hmem (List.mem_of_mem_erase hin)⟩
  · exact ⟨h1, h2, h3, h4, h5⟩
  · next hc =>
    exact ⟨h1, h2, h3, by simp [List.nodup_append, h4, List.disjoint_singleton, hc], h5⟩

theorem queueInv_step (q : DownloadQueue) (op : QOp) (h : QueueInv q) :
    QueueInv (op.apply q) := by
  cases op with
  | add_url u => exact queueInv_add_url q u h
  | start_download u => exact queueInv_start_download q u h
  | complete_download u => exact queueInv_complete_download q u h
  | fail_download u e => exact queueInv_fail_download q u e h
  | clear_completed =>
    obtain ⟨h1, h2, _, _, h5⟩ := h
    exact ⟨h1, h2, List.nodup_nil, List.nodup_nil, h5⟩
  | clear_all => exact queueInv_init

theorem queueInv_foldl (ops : List QOp) (q : DownloadQueue) (h : QueueInv q) :
    QueueInv (ops.foldl QOp.apply q) := by
  induction ops generalizing q with
  | nil => exact h
  | cons op rest ih => exact ih (op.apply q) (queueInv_step q op h)

theorem rate_step_bounds (d : ℚ) (ev : RateEvent)
    (h1 : Config.BASE_DELAY ≤ d) (h2 : d ≤ Config.MAX_DELAY) :
    Config.BASE_DELAY ≤ rate_step d ev ∧ rate_step d ev ≤ Config.MAX_DELAY := by
  have hbm : Config.BASE_DELAY ≤ Config.MAX_DELAY := by
    unfold Config.BASE_DELAY Config.MAX_DELAY
    norm_num
  cases ev with
  | success =>
    constructor
    · exact le_max_left _ _
    · refine max_le hbm ?_
      calc d / (11/10) ≤ d := by
            refine div_le_self ?_ (by norm_num)
            refine le_trans ?_ h1
            unfold Config.BASE_DELAY
            norm_num
        _ ≤ Config.MAX_DELAY := h2
  | failure =>
    constructor
    · refine le_min hbm ?_
      have hd : (0 : ℚ) ≤ d := by
        refine le_trans ?_ h1
        unfold Config.BASE_DELAY
        norm_num
      calc Config.BASE_DELAY ≤ d := h1
        _ ≤ d * Config.BACKOFF_MULTIPLIER := by
            unfold Config.BACKOFF_MULTIPLIER
            nlinarith
    · exact min_le_left _ _
  | rateLimited =>
    constructor
    · refine le_min hbm ?_
      calc Config.BASE_DELAY ≤ d := h1
        _ ≤ d * 2 := by nlinarith [le_trans (show (0:ℚ) ≤ Config.BASE_DELAY by unfold Config.BASE_DELAY; norm_num) h1]
    · exact min_le_left _ _

theorem run_rate_foldl_bounds (evs : List RateEvent) (d : ℚ)
    (h1 : Config.BASE_DELAY ≤ d) (h2 : d ≤ Config.MAX_DELAY) :
    Config.BASE_DELAY ≤ evs.foldl rate_step d ∧
      evs.foldl rate_step d ≤ Config.MAX_DELAY := by
  induction evs generalizing d with
  | nil => exact ⟨h1, h2⟩
  | cons ev rest ih =>
    obtain ⟨g1, g2⟩ := rate_step_bounds d ev h1 h2
    exact ih (rate_step d ev) g1 g2

theorem start_download_fields (q : DownloadQueue) (u : String) :
    (q.start_download u).completed = q.completed ∧
    (q.start_download u).failed = q.failed ∧
    (q.start_download u).history = q.history := by
  simp only [DownloadQueue.start_download]
  split <;> split <;> exact ⟨rfl, rfl, rfl⟩

theorem fail_download_fields_of_not_failed (q : DownloadQueue) (u : String)
    (e : Option String) (h : u ∉ q.failed) :
    (q.fail_download u e).failed = q.failed ++ [u] ∧
    (q.fail_download u e).history = q.history ++ [⟨u, HistStatus.failed, some (pyStr e)⟩] ∧
    (q.fail_download u e).completed = q.completed := by
  simp only [DownloadQueue.fail_download]
  split <;> simp [h]

theorem splitext_append (l : List Char) : (splitext l).1 ++ (splitext l).2 = l := by
  unfold splitext
  split
  · dsimp only
    split
    · exact List.take_append_drop _ l
    · simp
  · simp

theorem pyTake_length_le (l : List Char) (k : Int) (h : 0 ≤ k) :
    (pyTake l k).length ≤ k.toNat := by
  unfold pyTake
  rw [if_pos h]
  simp [List.length_take]

theorem pyTake_nonneg_take (l : List Char) (k : Int) (h : 0 ≤ k) :
    pyTake l k = l.take k.toNat := by
  unfold pyTake
  rw [if_pos h]

theorem twoStepInduction {motive : List Char → Prop} (h0 : motive [])
    (h1 : ∀ c, motive [c])
    (h2 : ∀ c d rest, motive (d :: rest) → motive (c :: d :: rest)) :
    ∀ l, motive l
  | [] => h0
  | [c] => h1 c
  | c :: d :: rest => h2 c d rest (twoStepInduction h0 h1 h2 (d :: rest))

theorem collapseWS_cons_not_space (d : Char) (rest : List Char)
    (h : pySpace d = false) : collapseWS (d :: rest) = d :: collapseWS rest := by
  cases rest with
  | nil => simp [collapseWS, h]
  | cons e t => simp [collapseWS, h]

theorem mem_collapseWS (l : List Char) :
    ∀ c ∈ collapseWS l, c ∈ l ∨ c = ' ' := by
  induction l using twoStepInduction with
  | h0 => simp [collapseWS]
  | h1 d =>
    intro c hc
    by_cases hd : pySpace d
    · simp [collapseWS, hd] at hc
      exact Or.inr hc
    · simp [collapseWS, hd] at hc
      exact Or.inl (by simp [hc])
  | h2 c d rest ih =>
    intro a ha
    unfold collapseWS at ha
    by_cases hc : pySpace c
    · by_cases hd : pySpace d
      · rw [if_pos hc, if_pos hd] at ha
        rcases ih a ha with h | h
        · exact Or.inl (List.mem_cons_of_mem _ h)
        · exact Or.inr h
      · rw [if_pos hc, if_neg hd] at ha
        rcases List.mem_cons.mp ha with h | h
        · exact Or.inr h
        · rcases ih a h with h' | h'
          · exact Or.inl (List.mem_cons_of_mem _ h')
          · exact Or.inr h'
    · rw [if_neg hc] at ha
      rcases List.mem_cons.mp ha with h | h
      · exact Or.inl (by simp [h])
      · rcases ih a h with h' | h'
        · exact Or.inl (List.mem_cons_of_mem _ h')
        · exact Or.inr h'

theorem collapseWS_space_mem (l : List Char) :
    ∀ c ∈ collapseWS l, pySpace c = true → c = ' ' := by
  induction l using twoStepInduction with
  | h0 => simp [collapseWS]
  | h1 d =>
    intro c hc hs
    by_cases hd : pySpace d
    · simpa [collapseWS, hd] using hc
    · simp [collapseWS, hd] at hc
      rw [hc] at hs
      exact absurd hs (by simp [hd])
  | h2 c d rest ih =>
    intro a ha hs
    unfold collapseWS at ha
    by_cases hc : pySpace c
    · by_cases hd : pySpace d
      · rw [if_pos hc, if_pos hd] at ha
        exact ih a ha hs
      · rw [if_pos hc, if_neg hd] at ha
        rcases List.mem_cons.mp ha with h | h
        · exact h
        · exact ih a h hs
    · rw [if_neg hc] at ha
      rcases List.mem_cons.mp ha with h | h
      · subst h
        exact absurd hs (by simpa using hc)
      · exact ih a h hs

theorem collapseWS_chain (l : List Char) :
    (collapseWS l).Chain' fun a b => pySpace a = false ∨ pySpace b = false := by
  induction l using twoStepInduction with
  | h0 => simp [collapseWS]
  | h1 d => by_cases hd : pySpace d <;> simp [collapseWS, hd]
  | h2 c d rest ih =>
    unfold collapseWS
    by_cases hc : pySpace c
    · by_cases hd : pySpace d
      · rw [if_pos hc, if_pos hd]
        exact ih
      · rw [if_pos hc, if_neg hd]
        rw [collapseWS_cons_not_space d rest (by simpa using hd)] at ih ⊢
        exact List.chain'_cons.mpr ⟨Or.inr (by simpa using hd), ih⟩
    · rw [if_neg hc]
      refine List.chain'_cons'.mpr ⟨fun b _ => Or.inl ?_, ih⟩
      simpa using hc

theorem wsNorm_collapseWS (l : List Char) : WsNorm (collapseWS l) :=
  ⟨collapseWS_space_mem l, collapseWS_chain l⟩

theorem collapseWS_eq_self (l : List Char) (h : WsNorm l) : collapseWS l = l := by
  induction l using twoStepInduction with
  | h0 => rfl
  | h1 d =>
    by_cases hd : pySpace d
    · have hde := h.1 d (by simp) hd
      simp [collapseWS, hd, hde]
    · simp [collapseWS, hd]
  | h2 c d rest ih =>
    obtain ⟨hpt, hch⟩ := h
    obtain ⟨hRcd, hch'⟩ := List.chain'_cons.mp hch
    have htail : WsNorm (d :: rest) :=
      ⟨fun a ha hs => hpt a (List.mem_cons_of_mem _ ha) hs, hch'⟩
    unfold collapseWS
    by_cases hc : pySpace c
    · have hceq : c = ' ' := hpt c (by simp) hc
      have hd : pySpace d = false := by
        rcases hRcd with h' | h'
        · rw [hc] at h'
          exact absurd h' (by decide)
        · exact h'
      rw [if_pos hc, if_neg (by simp [hd]), ih htail, hceq]
    · rw [if_neg hc, ih htail]

theorem dropWhile_idem (p : Char → Bool) :
    ∀ l : List Char, (l.dropWhile p).dropWhile p = l.dropWhile p
  | [] => rfl
  | c :: r => by
    by_cases hc : p c
    · simp only [List.dropWhile_cons, if_pos hc]
      exact dropWhile_idem p r
    · simp [List.dropWhile_cons, hc]

theorem dropWhile_eq_cons_head (p : Char → Bool) (l : List Char) :
    ∀ c r, l.dropWhile p = c :: r → p c = false := by
  induction l with
  | nil =>
    intro c r h
    simp at h
  | cons a t ih =>
    intro c r h
    rw [List.dropWhile_cons] at h
    split at h
    · exact ih c r h
    · next ha =>
      injection h with h1 _
      subst h1
      simpa using ha

theorem dropWhile_append_singleton (p : Char → Bool) (l : List Char) (a : Char)
    (h : l.dropWhile p = l) (ha : p a = false) :
    (l ++ [a]).dropWhile p = l ++ [a] := by
  cases l with
  | nil => simp [List.dropWhile_cons, ha]
  | cons c r =>
    have hc : p c = false := dropWhile_eq_cons_head p (c :: r) c r h
    simp [List.dropWhile_cons, hc]

theorem pyStrip_parts_fix (l : List Char) (h : pyStrip l = l) :
    l.dropWhile pySpace = l ∧ l.reverse.dropWhile pySpace = l.reverse := by
  have hlen := congrArg List.length h
  unfold pyStrip at hlen
  rw [List.length_reverse] at hlen
  have h1 : (l.dropWhile pySpace).length ≤ l.length :=
    (List.dropWhile_suffix pySpace).sublist.length_le
  have h2 : ((l.dropWhile pySpace).reverse.dropWhile pySpace).length ≤
      (l.dropWhile pySpace).length := by
    have h3 := (List.dropWhile_suffix (l := (l.dropWhile pySpace).reverse)
      pySpace).sublist.length_le
    simpa using h3
  have hv : l.dropWhile pySpace = l :=
    (List.dropWhile_suffix pySpace).eq_of_length (by omega)
  refine ⟨hv, ?_⟩
  have hY : (l.dropWhile pySpace).reverse.dropWhile pySpace =
      (l.dropWhile pySpace).reverse :=
    (List.dropWhile_suffix pySpace).eq_of_length (by simp; omega)
  rw [hv] at hY
  exact hY

theorem pyStrip_idem (l : List Char) : pyStrip (pyStrip l) = pyStrip l := by
  have hrev : (pyStrip l).reverse = (l.dropWhile pySpace).reverse.dropWhile pySpace := by
    unfold pyStrip
    rw [List.reverse_reverse]
  have h2 : (pyStrip l).reverse.dropWhile pySpace = (pyStrip l).reverse := by
    rw [hrev]
    exact dropWhile_idem pySpace _
  have h1 : (pyStrip l).dropWhile pySpace = pyStrip l := by
    cases hw : pyStrip l with
    | nil => rfl
    | cons c r =>
      have hsf : (pyStrip l).reverse <:+ (l.dropWhile pySpace).reverse := by
        rw [hrev]
        exact List.dropWhile_suffix pySpace
      obtain ⟨u, hu⟩ := hsf
      have hv : l.dropWhile pySpace = pyStrip l ++ u.reverse := by
        have h3 := congrArg List.reverse hu
        simpa [List.reverse_append] using h3.symm
      have hfix := dropWhile_idem pySpace l
      rw [hv, hw] at hfix
      have hcf : pySpace c = false := by
        apply dropWhile_eq_cons_head pySpace (c :: (r ++ u.reverse)) c (r ++ u.reverse)
        simpa using hfix
      rw [List.dropWhile_cons, if_neg (by simp [hcf])]
  calc pyStrip (pyStrip l)
      = (((pyStrip l).dropWhile pySpace).reverse.dropWhile pySpace).reverse := rfl
    _ = ((pyStrip l).reverse.dropWhile pySpace).reverse := by rw [h1]
    _ = (pyStrip l).reverse.reverse := by rw [h2]
    _ = pyStrip l := List.reverse_reverse _

theorem wsNorm_suffix {l₁ l₂ : List Char} (h : WsNorm l₂) (hs : l₁ <:+ l₂) :
    WsNorm l₁ :=
  ⟨fun c hc hsp => h.1 c (hs.sublist.subset hc) hsp, h.2.suffix hs⟩

theorem wsNorm_reverse {l : List Char} (h : WsNorm l) : WsNorm l.reverse := by
  refine ⟨fun c hc hsp => h.1 c (List.mem_reverse.mp hc) hsp, ?_⟩
  rw [List.chain'_reverse]
  exact h.2.imp fun a b hab => hab.symm

theorem wsNorm_pyStrip (l : List Char) (h : WsNorm l) : WsNorm (pyStrip l) := by
  unfold pyStrip
  exact wsNorm_reverse (wsNorm_suffix
    (wsNorm_reverse (wsNorm_suffix h (List.dropWhile_suffix pySpace)))
    (List.dropWhile_suffix pySpace))

theorem wsNorm_cons_underscore {l : List Char} (h : WsNorm l) : WsNorm ('_' :: l) := by
  refine ⟨?_, List.chain'_cons'.mpr ⟨fun b _ => Or.inl (by decide), h.2⟩⟩
  intro c hc hsp
  rcases List.mem_cons.mp hc with rfl | hmem
  · exact absurd hsp (by decide)
  · exact h.1 c hmem hsp

theorem noBad_replaceBadChars (l : List Char) : NoBad (replaceBadChars l) := by
  intro c hc
  obtain ⟨a, _, rfl⟩ := List.mem_map.mp hc
  by_cases hb : badChar a
  · rw [if_pos hb]
    decide
  · rw [if_neg hb]
    simpa using hb

theorem noBad_collapseWS {l : List Char} (h : NoBad l) : NoBad (collapseWS l) := by
  intro c hc
  rcases mem_collapseWS l c hc with hm | rfl
  · exact h c hm
  · decide

theorem noBad_pyStrip {l : List Char} (h : NoBad l) : NoBad (pyStrip l) := by
  intro c hc
  apply h
  unfold pyStrip at hc
  rw [List.mem_reverse] at hc
  have h3 := (List.dropWhile_suffix pySpace).sublist.subset hc
  rw [List.mem_reverse] at h3
  exact (List.dropWhile_suffix pySpace).sublist.subset h3

theorem noBad_cons_underscore {l : List Char} (h : NoBad l) : NoBad ('_' :: l) := by
  intro c hc
  rcases List.mem_cons.mp hc with rfl | hm
  · decide
  · exact h c hm

theorem replaceBadChars_eq_self {l : List Char} (h : NoBad l) :
    replaceBadChars l = l := by
  induction l with
  | nil => rfl
  | cons c r ih =>
    unfold replaceBadChars
    rw [List.map_cons]
    have hc : badChar c = false := h c (by simp)
    rw [if_neg (by simp [hc])]
    congr 1
    exact ih fun a ha => h a (List.mem_cons_of_mem _ ha)

theorem underscore_cons_not_reserved (xs : List Char) :
    ('_' :: xs) ∉ reserved_names := by
  intro h
  have h2 : ∀ r ∈ reserved_names, r.headD ' ' ≠ '_' := by decide
  exact h2 _ h rfl

theorem reserved_prefix_step_underscore (t : List Char) :
    reserved_prefix_step ('_' :: t) = '_' :: t := by
  unfold reserved_prefix_step
  dsimp only
  have h1 : List.takeWhile (fun c => !(c == '.')) ('_' :: t)
      = '_' :: List.takeWhile (fun c => !(c == '.')) t := rfl
  rw [h1, List.map_cons, show Char.toUpper '_' = '_' from by decide,
    if_neg (underscore_cons_not_reserved _)]

theorem pyStrip_cons_underscore (t : List Char) (h : pyStrip t = t) :
    pyStrip ('_' :: t) = '_' :: t := by
  have hparts := pyStrip_parts_fix t h
  show ((List.dropWhile pySpace ('_' :: t)).reverse.dropWhile pySpace).reverse = '_' :: t
  rw [List.dropWhile_cons, if_neg (by decide), List.reverse_cons,
    dropWhile_append_singleton pySpace t.reverse '_' hparts.2 (by decide),
    List.reverse_append]
  simp

theorem sanitizeL_fix (s : List Char) (hb : NoBad s) (hw : WsNorm s)
    (hstrip : pyStrip s = s) (hres : reserved_prefix_step s = s)
    (hlen : s.length ≤ Config.MAX_FILENAME_LENGTH) (hne : s ≠ []) :
    sanitizeL s = s := by
  have hpre : sanitize_pre s = s := by
    unfold sanitize_pre
    rw [replaceBadChars_eq_self hb, collapseWS_eq_self s hw, hstrip, hres]
  have htr : truncate_step s = s := by
    unfold truncate_step
    rw [if_neg (not_lt.mpr hlen)]
  unfold sanitizeL
  dsimp only
  rw [hpre, htr, if_neg hne]

theorem takeWhile_append_of_all (p : Char → Bool) (l₁ l₂ : List Char)
    (h : ∀ c ∈ l₁, p c = true) :
    (l₁ ++ l₂).takeWhile p = l₁ ++ l₂.takeWhile p := by
  induction l₁ with
  | nil => simp
  | cons c r ih =>
    rw [List.cons_append, List.takeWhile_cons, if_pos (h c (by simp)),
      ih fun a ha => h a (List.mem_cons_of_mem _ ha), List.cons_append]

theorem dropWhile_append_of_all (p : Char → Bool) (l₁ l₂ : List Char)
    (h : ∀ c ∈ l₁, p c = true) :
    (l₁ ++ l₂).dropWhile p = l₂.dropWhile p := by
  induction l₁ with
  | nil => simp
  | cons c r ih =>
    rw [List.cons_append, List.dropWhile_cons, if_pos (h c (by simp))]
    exact ih fun a ha => h a (List.mem_cons_of_mem _ ha)

theorem dropWhile_eq_self_of_head (p : Char → Bool) (l : List Char)
    (h : ∀ c, l.head? = some c → p c = false) : l.dropWhile p = l := by
  cases l with
  | nil => rfl
  | cons c r => rw [List.dropWhile_cons, if_neg (by simp [h c rfl])]

theorem toLower_toLower (c : Char) :
    Char.toLower (Char.toLower c) = Char.toLower c := by
  by_cases h : c.toNat ≥ 65 ∧ c.toNat ≤ 90
  · have h1 : Char.toLower c = Char.ofNat (c.toNat + 32) := by
      simp only [Char.toLower]
      rw [if_pos h]
    have ht : (Char.ofNat (c.toNat + 32)).toNat = c.toNat + 32 := by
      unfold Char.ofNat
      rw [dif_pos]
      · rfl
      · constructor
        omega
    rw [h1]
    simp only [Char.toLower]
    rw [if_neg (by rw [ht]; omega)]
  · have h1 : Char.toLower c = c := by
      simp only [Char.toLower]
      rw [if_neg h]
    rw [h1, h1]

theorem map_toLower_idem (l : List Char) :
    (l.map Char.toLower).map Char.toLower = l.map Char.toLower := by
  rw [List.map_map]
  exact List.map_congr_left fun a _ => toLower_toLower a

theorem urlHostClean_spec (c : Char) (h : urlHostClean c = true) :
    (c == '/') = false ∧ (c == '?') = false ∧ (c == '#') = false ∧
    (c == '@') = false ∧ (c == ':') = false ∧ (c == '[') = false := by
  simp only [urlHostClean, Bool.not_eq_true', Bool.or_eq_false_iff] at h
  exact ⟨h.1.1.1.1.1, h.1.1.1.1.2, h.1.1.1.2, h.1.1.2, h.1.2, h.2⟩

theorem splitScheme_https (t : List Char) :
    splitScheme ("https://".data ++ t) = ("https".data, '/' :: '/' :: t) := rfl

theorem pyStrip_https (h : List Char) :
    pyStrip ("https://".data ++ (h ++ "/g/".data))
      = "https://".data ++ (h ++ "/g/".data) := by
  have hinner : List.dropWhile pySpace ("https://".data ++ (h ++ "/g/".data))
      = "https://".data ++ (h ++ "/g/".data) := by
    apply dropWhile_eq_self_of_head
    intro c hcn
    rw [show ("https://".data ++ (h ++ "/g/".data)).head? = some 'h' from rfl] at hcn
    injection hcn with h1
    subst h1
    decide
  have houter : (("https://".data ++ (h ++ "/g/".data)).reverse).dropWhile pySpace
      = ("https://".data ++ (h ++ "/g/".data)).reverse := by
    apply dropWhile_eq_self_of_head
    intro c hcn
    rw [List.head?_reverse, ← List.append_assoc] at hcn
    rw [show (("https://".data ++ h) ++ "/g/".data).getLast? = some '/' from by
      rw [List.getLast?_append]
      rfl] at hcn
    injection hcn with h1
    subst h1
    decide
  unfold pyStrip
  rw [hinner, houter, List.reverse_reverse]

theorem normalize_https (h : List Char) :
    normalize_url (String.mk ("https://".data ++ (h ++ "/g/".data)))
      = "https://".data ++ (h ++ "/g/".data) := by
  show (if List.isPrefixOf "http".data
          (pyStrip ("https://".data ++ (h ++ "/g/".data))) then
        pyStrip ("https://".data ++ (h ++ "/g/".data))
      else "https://".data ++ pyStrip ("https://".data ++ (h ++ "/g/".data)))
      = "https://".data ++ (h ++ "/g/".data)
  rw [pyStrip_https h]
  rw [if_pos (show List.isPrefixOf "http".data
      ("https://".data ++ (h ++ "/g/".data)) = true from rfl)]

theorem splitNetloc_clean (h : List Char) (hc : h.all urlHostClean = true) :
    splitNetloc ('/' :: '/' :: (h ++ "/g/".data)) = (h, "/g/".data) := by
  have hall : ∀ c ∈ h, (!netlocEnd c) = true := by
    intro c hcm
    have hs := urlHostClean_spec c ((List.all_eq_true.mp hc) c hcm)
    simp [netlocEnd, hs.1, hs.2.1, hs.2.2.1]
  show (List.takeWhile (fun c => !netlocEnd c) (h ++ "/g/".data),
        List.dropWhile (fun c => !netlocEnd c) (h ++ "/g/".data)) = (h, "/g/".data)
  rw [takeWhile_append_of_all _ _ _ hall, dropWhile_append_of_all _ _ _ hall,
    show List.takeWhile (fun c => !netlocEnd c) "/g/".data = [] from rfl,
    show List.dropWhile (fun c => !netlocEnd c) "/g/".data = "/g/".data from rfl,
    List.append_nil]

theorem hostnameOf_clean (h : List Char) (hc : h.all urlHostClean = true) :
    hostnameOf h = h.map Char.toLower := by
  unfold hostnameOf
  dsimp only
  have h1 : List.takeWhile (fun c => !(c == '@')) h.reverse = h.reverse := by
    apply List.takeWhile_eq_self_iff.mpr
    intro c hcm
    have hs := urlHostClean_spec c ((List.all_eq_true.mp hc) c (List.mem_reverse.mp hcm))
    simp [hs.2.2.2.1]
  rw [h1, List.reverse_reverse]
  have h2 : h.headD ' ' ≠ '[' := by
    cases hh : h with
    | nil => decide
    | cons c r =>
      have hs := urlHostClean_spec c ((List.all_eq_true.mp hc) c (by rw [hh]; simp))
      simpa using hs.2.2.2.2.2
  rw [if_neg (by simpa using h2)]
  have h3 : List.takeWhile (fun c => !(c == ':')) h = h := by
    apply List.takeWhile_eq_self_iff.mpr
    intro c hcm
    have hs := urlHostClean_spec c ((List.all_eq_true.mp hc) c hcm)
    simp [hs.2.2.2.2.1]
  rw [h3]

theorem host_ok_iff_spec (hn : List Char) :
    host_ok (hn.map Char.toLower) = true ↔ spec_host_accepted hn := by
  unfold host_ok spec_host_accepted
  rw [Bool.or_eq_true, beq_iff_eq, List.isSuffixOf_iff_suffix]

theorem parse_url_clean_host (h : List Char) (hc : h.all urlHostClean = true) :
    parse_url (String.mk ("https://".data ++ (h ++ "/g/".data)))
      = if host_ok (h.map Char.toLower) then some ⟨"g", .board, none⟩ else none := by
  unfold parse_url url_hostname url_path
  rw [normalize_https h, splitScheme_https (h ++ "/g/".data)]
  dsimp only
  rw [splitNetloc_clean h hc]
  dsimp only
  rw [hostnameOf_clean h hc, map_toLower_idem,
    show pathOf "/g/".data = "/g/".data from rfl,
    show parse_path "/g/".data = some ⟨"g", UrlType.board, none⟩ from rfl]

/-! ## Claim theorems -/

/-- C1: `parse_url` accepts the host of a URL iff (case-insensitively,
with "https://" prepended when no scheme is present) it equals "4chan.org"
or ends with ".4chan.org": a non-`none` result implies the host gate
passed; the gate is equivalent to the spec's acceptance predicate; over
every delimiter-free host `h`, parsing `https://h/g/` succeeds iff the
predicate holds of `h`; and a host that merely contains "4chan.org" as a
substring, like "not4chan.org", yields the `None` sentinel.  (`parse_url`
never raises: the body sits in a catch-all try/except, and the model is a
total function.) -/
theorem parse_url_host_acceptance (url : String) (h : List Char)
    (hc : h.all urlHostClean = true) :
    ((parse_url url).isSome = true → host_ok (url_hostname url) = true) ∧
    (∀ hn : List Char, host_ok (hn.map Char.toLower) = true ↔ spec_host_accepted hn) ∧
    ((parse_url (String.mk ("https://".data ++ (h ++ "/g/".data)))).isSome = true ↔
      spec_host_accepted h) ∧
    parse_url "https://not4chan.org/g/" = none ∧
    "4chan.org".data <:+ "not4chan.org".data := by
  refine ⟨?_, host_ok_iff_spec, ?_, by decide, ⟨"not".data, rfl⟩⟩
  · intro hs
    by_cases hok : host_ok (url_hostname url) = true
    · exact hok
    · unfold parse_url at hs
      rw [if_neg hok] at hs
      simp at hs
  · rw [parse_url_clean_host h hc]
    by_cases hok : host_ok (h.map Char.toLower) = true
    · rw [if_pos hok]
      simp only [Option.isSome_some, true_iff]
      exact (host_ok_iff_spec h).mp hok
    · rw [if_neg hok]
      simp only [Option.isSome_none]
      constructor
      · intro hfalse
        exact absurd hfalse (by decide)
      · intro hspec
        exact absurd ((host_ok_iff_spec h).mpr hspec) hok

/-- C1 witness: instantiated at a mixed-case subdomain host. -/
theorem parse_url_host_acceptance_witness :
    ("BOARDS.4chan.org".data.all urlHostClean = true) ∧
    (((parse_url "https://boards.4chan.org/g/thread/123").isSome = true →
        host_ok (url_hostname "https://boards.4chan.org/g/thread/123") = true) ∧
      (∀ hn : List Char,
        host_ok (hn.map Char.toLower) = true ↔ spec_host_accepted hn) ∧
      ((parse_url (String.mk ("https://".data ++
          ("BOARDS.4chan.org".data ++ "/g/".data)))).isSome = true ↔
        spec_host_accepted "BOARDS.4chan.org".data) ∧
      parse_url "https://not4chan.org/g/" = none ∧
      "4chan.org".data <:+ "not4chan.org".data) :=
  ⟨by decide, parse_url_host_acceptance "https://boards.4chan.org/g/thread/123"
    "BOARDS.4chan.org".data (by decide)⟩

/-- C2: the claim that every URL is in at most one of the four collections
at any instant, and that no completed/failed URL re-enters the pending
queue, fails on the code: after `add_url u; start_download u;
complete_download u; add_url u` starting from the empty queue, `u` is in
`queue` and in `completed` at the same time (the second `add_url` only
checks `queue` and `active_downloads`, so it re-adds a completed URL). -/
theorem downloadQueue_exclusivity_counterexample :
    "u" ∈ (runQueue [.add_url "u", .start_download "u",
        .complete_download "u", .add_url "u"]).queue ∧
    "u" ∈ (runQueue [.add_url "u", .start_download "u",
        .complete_download "u", .add_url "u"]).completed := by
  decide

/-- C2 (amended): for every sequence of DownloadQueue operations starting
from the empty queue, each of the four collections is duplicate-free and
the pending queue is disjoint from the active set; however a URL can be in
`completed` (or `failed`) and in `queue` simultaneously, and a URL that
reached `completed`/`failed` can be re-added to the pending queue. -/
theorem downloadQueue_nodup_and_pending_active_disjoint (ops : List QOp) :
    (runQueue ops).queue.Nodup ∧ (runQueue ops).active_downloads.Nodup ∧
    (runQueue ops).completed.Nodup ∧ (runQueue ops).failed.Nodup ∧
    (runQueue ops).queue.Disjoint (runQueue ops).active_downloads :=
  queueInv_foldl ops DownloadQueue.init queueInv_init

/-- C3: status 206 yields append mode with total `content-length +
existing_size` and status 200 unlinks the partial file and yields
full-write mode, as claimed; but the claim that every other status takes
the HTTP-error path fails: `response.raise_for_status()` only raises for
status codes in [400, 600), so e.g. status 204 reaches the fallback and
returns full-write mode `("wb", 0)` — the silent overwrite the code's own
comment (line 145) asserts cannot happen. -/
theorem handle_download_response_dispatch (cl ex : Nat) (dest : Option Nat) :
    _handle_download_response 206 cl ex dest = .ok (.ab, cl + ex, dest) ∧
    _handle_download_response 200 cl ex dest = .ok (.wb, cl, none) ∧
    _handle_download_response 404 cl ex dest = .error 404 ∧
    _handle_download_response 500 cl ex dest = .error 500 ∧
    _handle_download_response 204 cl ex dest = .ok (.wb, 0, dest) :=
  ⟨rfl, rfl, rfl, rfl, rfl⟩

/-- C8: starting from `BASE_DELAY`, the rate-controller delay always stays
in `[BASE_DELAY, MAX_DELAY]`, and the three update rules are exactly
`max(BASE_DELAY, delay / 1.1)` on success, `min(MAX_DELAY, delay *
BACKOFF_MULTIPLIER)` on generic failure, and `min(MAX_DELAY, delay * 2)`
on a 429 rate limit. -/
theorem current_delay_bounded (evs : List RateEvent) (d : ℚ) :
    (Config.BASE_DELAY ≤ run_rate evs ∧ run_rate evs ≤ Config.MAX_DELAY) ∧
    rate_step d .success = max Config.BASE_DELAY (d / (11/10)) ∧
    rate_step d .failure = min Config.MAX_DELAY (d * Config.BACKOFF_MULTIPLIER) ∧
    rate_step d .rateLimited = min Config.MAX_DELAY (d * 2) := by
  refine ⟨run_rate_foldl_bounds evs Config.BASE_DELAY le_rfl ?_, rfl, rfl, rfl⟩
  unfold Config.BASE_DELAY Config.MAX_DELAY
  norm_num

/-- C9: if the free-space query raises, `check_disk_space` returns `true`
(the gate passes); it returns `false` exactly when the download directory
is unset or the query succeeds reporting free space at or below
`MIN_FREE_SPACE_MB + required_mb`. -/
theorem check_disk_space_gate (dir : Option String) (q : Except String Nat) (r : ℚ)
    (e : String) :
    (dir ≠ none → q = .error e → check_disk_space dir q r = true) ∧
    (check_disk_space dir q r = false ↔
      dir = none ∨ ∃ b, q = .ok b ∧
        (b : ℚ) / (1024 * 1024) ≤ Config.MIN_FREE_SPACE_MB + r) := by
  cases dir with
  | none => simp [check_disk_space]
  | some d =>
    cases q with
    | error msg => simp [check_disk_space]
    | ok b =>
      constructor
      · intro _ hq
        exact absurd hq (by simp)
      · simp [check_disk_space, not_lt]

/-- C9 witness: a failing free-space query with the directory set makes
the gate pass. -/
theorem check_disk_space_gate_witness :
    ((some "dl" : Option String) ≠ none →
      (Except.error "io error" : Except String Nat) = .error "io error" →
      check_disk_space (some "dl") (.error "io error") 0 = true) ∧
    (check_disk_space (some "dl") (.error "io error") 0 = false ↔
      (some "dl" : Option String) = none ∨ ∃ b,
        (Except.error "io error" : Except String Nat) = .ok b ∧
        (b : ℚ) / (1024 * 1024) ≤ Config.MIN_FREE_SPACE_MB + 0) :=
  check_disk_space_gate (some "dl") (.error "io error") 0 "io error"

/-- C10: when the download directory is unset, `download_file` returns
`false` immediately and leaves the whole scraper state — queue, history
and stats included — unchanged. -/
theorem download_file_no_dir_unchanged (st : ScraperState) (url : String)
    (outcome : Nat → AttemptOutcome) (h : st.download_dir = none) :
    download_file st url outcome = (false, st) := by
  simp [download_file, h]

set_option maxRecDepth 40000 in
/-- C4 fails on the code: truncation only shortens the stem, so an input
whose `os.path.splitext` extension is itself longer than
`MAX_FILENAME_LENGTH` survives the length check — for `"a." + "b"*201`
the sanitized result is the 202-character extension. -/
theorem sanitize_filename_length_counterexample :
    Config.MAX_FILENAME_LENGTH <
      (sanitize_filename (String.mk ('a' :: '.' :: List.replicate 201 'b'))).length := by
  decide

/-- C4 (amended): whenever the sanitized name's extension is at most
`MAX_FILENAME_LENGTH` characters long (which covers every realistic
filename), the result of `sanitize_filename` has length at most
`MAX_FILENAME_LENGTH`, and when truncation occurs the extension is
preserved unchanged as a suffix of the result. -/
theorem sanitize_filename_length_bound (x : List Char)
    (hext : (splitext (sanitize_pre x)).2.length ≤ Config.MAX_FILENAME_LENGTH) :
    (sanitizeL x).length ≤ Config.MAX_FILENAME_LENGTH ∧
    (Config.MAX_FILENAME_LENGTH < (sanitize_pre x).length →
      (splitext (sanitize_pre x)).2 <:+ sanitizeL x) := by
  have hM : Config.MAX_FILENAME_LENGTH = 200 := rfl
  by_cases hlen : Config.MAX_FILENAME_LENGTH < (sanitize_pre x).length
  · have htr : truncate_step (sanitize_pre x) =
        pyTake (splitext (sanitize_pre x)).1
          ((Config.MAX_FILENAME_LENGTH : Int) -
            ((splitext (sanitize_pre x)).2.length : Int))
          ++ (splitext (sanitize_pre x)).2 := by
      unfold truncate_step
      rw [if_pos hlen]
    have hk : (0 : Int) ≤ (Config.MAX_FILENAME_LENGTH : Int) -
        ((splitext (sanitize_pre x)).2.length : Int) := by omega
    have htl := pyTake_length_le (splitext (sanitize_pre x)).1
      ((Config.MAX_FILENAME_LENGTH : Int) -
        ((splitext (sanitize_pre x)).2.length : Int)) hk
    have hne : truncate_step (sanitize_pre x) ≠ [] := by
      rw [htr]
      intro hcon
      rcases List.append_eq_nil.mp hcon with ⟨h1, h2⟩
      rw [pyTake_nonneg_take _ _ hk] at h1
      have h1len := congrArg List.length h1
      rw [List.length_take] at h1len
      simp only [List.length_nil] at h1len
      have hstem : (splitext (sanitize_pre x)).1.length = (sanitize_pre x).length := by
        have h3 := congrArg List.length (splitext_append (sanitize_pre x))
        rw [List.length_append, h2] at h3
        simpa using h3
      have he0 : (splitext (sanitize_pre x)).2.length = 0 := by rw [h2]; rfl
      rw [hstem] at h1len
      rw [hM] at hlen
      rw [he0] at h1len
      omega
    have hsan : sanitizeL x = truncate_step (sanitize_pre x) := by
      unfold sanitizeL
      dsimp only
      rw [if_neg hne]
    constructor
    · rw [hsan, htr]
      rw [List.length_append]
      have : ((Config.MAX_FILENAME_LENGTH : Int) -
          ((splitext (sanitize_pre x)).2.length : Int)).toNat =
          Config.MAX_FILENAME_LENGTH - (splitext (sanitize_pre x)).2.length := by
        omega
      omega
    · intro _
      rw [hsan, htr]
      exact List.suffix_append _ _
  · have htr : truncate_step (sanitize_pre x) = sanitize_pre x := by
      unfold truncate_step
      rw [if_neg hlen]
    constructor
    · unfold sanitizeL
      dsimp only
      rw [htr]
      split
      · decide
      · exact le_of_not_lt hlen
    · intro hcon
      exact absurd hcon hlen

/-- C4 witness: a short ordinary filename satisfies the hypothesis and the
bound. -/
theorem sanitize_filename_length_bound_witness :
    ((splitext (sanitize_pre "photo.jpg".data)).2.length ≤ Config.MAX_FILENAME_LENGTH) ∧
    ((sanitizeL "photo.jpg".data).length ≤ Config.MAX_FILENAME_LENGTH ∧
      (Config.MAX_FILENAME_LENGTH < (sanitize_pre "photo.jpg".data).length →
        (splitext (sanitize_pre "photo.jpg".data)).2 <:+ sanitizeL "photo.jpg".data)) :=
  ⟨by decide, sanitize_filename_length_bound "photo.jpg".data (by decide)⟩

set_option maxRecDepth 40000 in
/-- C5 fails on the code: truncation can cut the name right after an
interior space, and the second pass's strip removes that trailing space —
for 199 a's, a space and 10 b's the first pass returns 200 characters
ending in a space and the second pass returns 199. -/
theorem sanitize_filename_not_idempotent :
    sanitize_filename (sanitize_filename
        (String.mk (List.replicate 199 'a' ++ ' ' :: List.replicate 10 'b'))) ≠
      sanitize_filename
        (String.mk (List.replicate 199 'a' ++ ' ' :: List.replicate 10 'b')) := by
  decide

/-- C5 (amended): sanitization is idempotent for every input that does not
trigger truncation, i.e. whenever the sanitized-but-untruncated form is at
most `MAX_FILENAME_LENGTH` characters long. -/
theorem sanitize_filename_idempotent_when_short (x : List Char)
    (hlen : (sanitize_pre x).length ≤ Config.MAX_FILENAME_LENGTH) :
    sanitizeL (sanitizeL x) = sanitizeL x := by
  have htr : truncate_step (sanitize_pre x) = sanitize_pre x := by
    unfold truncate_step
    rw [if_neg (not_lt.mpr hlen)]
  by_cases hnil : sanitize_pre x = []
  · have hx : sanitizeL x = "unnamed_file".data := by
      unfold sanitizeL
      dsimp only
      rw [htr, if_pos hnil]
    rw [hx]
    decide
  · have hx : sanitizeL x = sanitize_pre x := by
      unfold sanitizeL
      dsimp only
      rw [htr, if_neg hnil]
    rw [hx]
    have hbt : NoBad (pyStrip (collapseWS (replaceBadChars x))) :=
      noBad_pyStrip (noBad_collapseWS (noBad_replaceBadChars x))
    have hwt : WsNorm (pyStrip (collapseWS (replaceBadChars x))) :=
      wsNorm_pyStrip _ (wsNorm_collapseWS _)
    have hst : pyStrip (pyStrip (collapseWS (replaceBadChars x))) =
        pyStrip (collapseWS (replaceBadChars x)) := pyStrip_idem _
    by_cases hr : ((pyStrip (collapseWS (replaceBadChars x))).takeWhile
        fun c => !(c == '.')).map Char.toUpper ∈ reserved_names
    · have hsx : sanitize_pre x = '_' :: pyStrip (collapseWS (replaceBadChars x)) := by
        unfold sanitize_pre reserved_prefix_step
        dsimp only
        rw [if_pos hr]
      rw [hsx]
      apply sanitizeL_fix
      · exact noBad_cons_underscore hbt
      · exact wsNorm_cons_underscore hwt
      · exact pyStrip_cons_underscore _ hst
      · exact reserved_prefix_step_underscore _
      · rw [← hsx]
        exact hlen
      · simp
    · have hsx : sanitize_pre x = pyStrip (collapseWS (replaceBadChars x)) := by
        unfold sanitize_pre reserved_prefix_step
        dsimp only
        rw [if_neg hr]
      rw [hsx]
      apply sanitizeL_fix
      · exact hbt
      · exact hwt
      · exact hst
      · unfold reserved_prefix_step
        dsimp only
        rw [if_neg hr]
      · rw [← hsx]
        exact hlen
      · rw [← hsx]
        exact hnil

/-- C5 witness: an ordinary short filename is a fixed point of a second
sanitization pass. -/
theorem sanitize_filename_idempotent_when_short_witness :
    ((sanitize_pre "my photo.jpg".data).length ≤ Config.MAX_FILENAME_LENGTH) ∧
      sanitizeL (sanitizeL "my photo.jpg".data) = sanitizeL "my photo.jpg".data :=
  ⟨by decide, sanitize_filename_idempotent_when_short "my photo.jpg".data (by decide)⟩

/-- C6: when every one of the `MAX_RETRIES = 3` attempts fails with a
non-cancellation error, `download_file` sleeps `2^attempt` seconds after
each failed attempt before the last (so `[2^0, 2^1]`), returns `false`,
appends exactly one failure record for the url to the history, increments
the failed counter exactly once, and the url does not enter the completed
list (the success counter is untouched as well). -/
theorem download_file_retry_exhaustion (st : ScraperState) (url : String)
    (errs : Nat → String)
    (hdir : st.download_dir ≠ none) (hcancel : st.cancelled = false)
    (hfail : url ∉ st.queue.failed) (hdone : url ∉ st.queue.completed) :
    (download_file st url fun i => .failure (errs i)).1 = false ∧
    (download_file st url fun i => .failure (errs i)).2.sleep_log
      = st.sleep_log ++ [2 ^ 0, 2 ^ 1] ∧
    (download_file st url fun i => .failure (errs i)).2.stats_failed
      = st.stats_failed + 1 ∧
    (download_file st url fun i => .failure (errs i)).2.stats_downloaded
      = st.stats_downloaded ∧
    (download_file st url fun i => .failure (errs i)).2.queue.history
      = st.queue.history ++ [⟨url, HistStatus.failed, some (errs 2)⟩] ∧
    (download_file st url fun i => .failure (errs i)).2.queue.failed
      = st.queue.failed ++ [url] ∧
    url ∉ (download_file st url fun i => .failure (errs i)).2.queue.completed := by
  have hq := start_download_fields st.queue url
  have hq2 := fail_download_fields_of_not_failed (st.queue.start_download url) url
    (some (errs 2)) (hq.2.1 ▸ hfail)
  have hrun : download_file st url (fun i => .failure (errs i)) =
      (false,
        { st with
            stats_failed := st.stats_failed + 1,
            sleep_log := st.sleep_log ++ [2 ^ 0, 2 ^ 1],
            queue := (st.queue.start_download url).fail_download url (some (errs 2)) }) := by
    unfold download_file
    rw [if_neg hdir]
    simp only [hcancel, Bool.false_eq_true, if_false]
    show download_loop url _ 3 0 _ = _
    unfold download_loop
    simp only []
    unfold download_loop
    simp only []
    unfold download_loop
    simp only [_record_failed_download, List.append_assoc]
    rfl
  rw [hrun]
  refine ⟨rfl, rfl, rfl, rfl, ?_, ?_, ?_⟩
  · simpa [pyStr, hq.2.2] using hq2.2.1
  · simpa [hq.2.1] using hq2.1
  · simpa [hq2.2.2, hq.1] using hdone

/-- C6 witness: a concrete three-failure run from a fresh state. -/
theorem download_file_retry_exhaustion_witness :
    (download_file ⟨some "dl", false, 0, 0, DownloadQueue.init, []⟩ "u"
        fun i => .failure (toString i)).1 = false ∧
    (download_file ⟨some "dl", false, 0, 0, DownloadQueue.init, []⟩ "u"
        fun i => .failure (toString i)).2.sleep_log = [] ++ [2 ^ 0, 2 ^ 1] ∧
    (download_file ⟨some "dl", false, 0, 0, DownloadQueue.init, []⟩ "u"
        fun i => .failure (toString i)).2.stats_failed = 0 + 1 ∧
    (download_file ⟨some "dl", false, 0, 0, DownloadQueue.init, []⟩ "u"
        fun i => .failure (toString i)).2.stats_downloaded = 0 ∧
    (download_file ⟨some "dl", false, 0, 0, DownloadQueue.init, []⟩ "u"
        fun i => .failure (toString i)).2.queue.history
      = [] ++ [⟨"u", HistStatus.failed, some (toString 2)⟩] ∧
    (download_file ⟨some "dl", false, 0, 0, DownloadQueue.init, []⟩ "u"
        fun i => .failure (toString i)).2.queue.failed = [] ++ ["u"] ∧
    "u" ∉ (download_file ⟨some "dl", false, 0, 0, DownloadQueue.init, []⟩ "u"
        fun i => .failure (toString i)).2.queue.completed :=
  download_file_retry_exhaustion ⟨some "dl", false, 0, 0, DownloadQueue.init, []⟩ "u"
    (fun i => toString i) (by simp) rfl (by simp [DownloadQueue.init])
    (by simp [DownloadQueue.init])

/-- C7: a transfer attempt that reaches the streamed write is never
reported as success when the resulting destination file is empty: success
implies a positive final size, and a zero streamed size yields the
"Downloaded file is empty" exception for the retry handler with the
zero-byte file unlinked, so no zero-byte artifact remains. -/
theorem attempt_zero_byte_never_success (dest : Option Nat) (a : TransferAttempt) :
    ((attempt_transfer dest a).2 = .ok true →
      ∃ n, (attempt_transfer dest a).1 = some n ∧ 0 < n) ∧
    (∀ mode total dest1,
      _handle_download_response a.status a.content_length
          (_build_resume_headers dest).2 dest = .ok (mode, total, dest1) →
      streamed_size mode dest1 a.chunks = 0 →
      (attempt_transfer dest a).2 = .error "Downloaded file is empty" ∧
      (attempt_transfer dest a).1 = none) := by
  constructor
  · intro hok
    simp only [attempt_transfer] at hok ⊢
    cases hresp : _handle_download_response a.status a.content_length
        (_build_resume_headers dest).2 dest with
    | error code =>
      rw [hresp] at hok
      simp at hok
    | ok t =>
      obtain ⟨mode, total, dest1⟩ := t
      rw [hresp] at hok
      by_cases hz : streamed_size mode dest1 a.chunks = 0
      · simp only [hz, if_pos rfl] at hok
        simp at hok
      · simp only [if_neg hz] at hok ⊢
        exact ⟨streamed_size mode dest1 a.chunks, rfl, Nat.pos_of_ne_zero hz⟩
  · intro mode total dest1 hresp hz
    simp only [attempt_transfer]
    rw [hresp]
    simp [hz]

/-- C7 witness: a fresh 200 response with an empty body over a 3-byte
partial file is rejected and the file removed. -/
theorem attempt_zero_byte_never_success_witness :
    (attempt_transfer (some 3) ⟨200, 0, []⟩).2 = .error "Downloaded file is empty" ∧
    (attempt_transfer (some 3) ⟨200, 0, []⟩).1 = none :=
  (attempt_zero_byte_never_success (some 3) ⟨200, 0, []⟩).2 .wb 0 none rfl rfl

/-- C10 witness. -/
theorem download_file_no_dir_unchanged_witness :
    download_file ⟨none, false, 0, 0, DownloadQueue.init, []⟩ "u"
      (fun _ => .success) = (false, ⟨none, false, 0, 0, DownloadQueue.init, []⟩) :=
  download_file_no_dir_unchanged ⟨none, false, 0, 0, DownloadQueue.init, []⟩ "u"
    (fun _ => .success) rfl

end FourCharm
